import Mathlib

/-!
# WOTS+ core of Vindax-MCM-tools, shallowly embedded

Shallow embedding of the hash-based one-time-signature core of the
Vindax-MCM-tools repository, with theorems settling the spec's claims.

Bytes and 32-bit words are modelled as `Nat` with explicit `% 256` /
`% 2^32` where the Go code relies on fixed-width wrap-around; byte
buffers are `List Nat`.  Go code paths that can panic (out-of-range
slice expressions and indexed reads) are modelled with `Option`-valued
checked variants alongside the total functions.

* `SHA2`: the `crypto/sha256` digest the tools call (FIPS 180-4,
  executable, `Nat`-valued).
* `T3`: `tool-3/wots.go` — the in-repository WOTS+ implementation
  (`WotsSign`, `WotsPkGen`, `WotsPkFromSig` and their helpers).
* `T2`: `tool-2/main.go` — seed derivation (`componentsGenerator`) and
  account assembly (`generateAccount`).
* `P2`: the second source file of `unnamed/part_002` — the duplicate
  WOTS+ implementation with a mutable `WOTSAddress`.
-/

namespace SHA2

/-- The 32-bit modulus. -/
def M32 : Nat := 4294967296

/-- Right rotation of a 32-bit word (inputs below `M32`). -/
def rotr (x n : Nat) : Nat := ((x <<< (32 - n)) % M32) ||| (x >>> n)

/-- Bitwise complement of a 32-bit word. -/
def compl32 (x : Nat) : Nat := x ^^^ 4294967295

/-- The choice function of FIPS 180-4. -/
def ch (x y z : Nat) : Nat := (x &&& y) ^^^ (compl32 x &&& z)

/-- The majority function of FIPS 180-4. -/
def maj (x y z : Nat) : Nat := (x &&& y) ^^^ (x &&& z) ^^^ (y &&& z)

/-- Upper-case sigma-0. -/
def bsig0 (x : Nat) : Nat := rotr x 2 ^^^ rotr x 13 ^^^ rotr x 22

/-- Upper-case sigma-1. -/
def bsig1 (x : Nat) : Nat := rotr x 6 ^^^ rotr x 11 ^^^ rotr x 25

/-- Lower-case sigma-0. -/
def ssig0 (x : Nat) : Nat := rotr x 7 ^^^ rotr x 18 ^^^ (x >>> 3)

/-- Lower-case sigma-1. -/
def ssig1 (x : Nat) : Nat := rotr x 17 ^^^ rotr x 19 ^^^ (x >>> 10)

/-- Big-endian 4-byte serialization of a 32-bit word. -/
def u32be (x : Nat) : List Nat :=
  [(x >>> 24) % 256, (x >>> 16) % 256, (x >>> 8) % 256, x % 256]

/-- Big-endian 8-byte serialization of a 64-bit value. -/
def u64be (x : Nat) : List Nat :=
  [(x >>> 56) % 256, (x >>> 48) % 256, (x >>> 40) % 256, (x >>> 32) % 256,
   (x >>> 24) % 256, (x >>> 16) % 256, (x >>> 8) % 256, x % 256]

/-- The eight initial hash values (FIPS 180-4 section 5.3.3, in decimal). -/
def initH : List Nat :=
  [1779033703, 3144134277, 1013904242, 2773480762,
   1359893119, 2600822924, 528734635, 1541459225]

/-- The 64 round constants (FIPS 180-4 section 4.2.2, in decimal). -/
def K : List Nat :=
  [1116352408, 1899447441, 3049323471, 3921009573, 961987163, 1508970993,
   2453635748, 2870763221, 3624381080, 310598401, 607225278, 1426881987,
   1925078388, 2162078206, 2614888103, 3248222580, 3835390401, 4022224774,
   264347078, 604807628, 770255983, 1249150122, 1555081692, 1996064986,
   2554220882, 2821834349, 2952996808, 3210313671, 3336571891, 3584528711,
   113926993, 338241895, 666307205, 773529912, 1294757372, 1396182291,
   1695183700, 1986661051, 2177026350, 2456956037, 2730485921, 2820302411,
   3259730800, 3345764771, 3516065817, 3600352804, 4094571909, 275423344,
   430227734, 506948616, 659060556, 883997877, 958139571, 1322822218,
   1537002063, 1747873779, 1955562222, 2024104815, 2227730452, 2361852424,
   2428436474, 2756734187, 3204031479, 3329325298]

/-- FIPS 180-4 padding: `0x80`, zeros, then the 64-bit big-endian bit length,
to a multiple of 64 bytes. -/
def pad (msg : List Nat) : List Nat :=
  msg ++ 128 :: (List.replicate ((119 - msg.length % 64) % 64) 0 ++ u64be (msg.length * 8))

/-- Big-endian 32-bit word at byte offset `o` of a block. -/
def wordOf (m : List Nat) (o : Nat) : Nat :=
  (m.getD o 0) <<< 24 ||| (m.getD (o + 1) 0) <<< 16 ||| (m.getD (o + 2) 0) <<< 8 ||| m.getD (o + 3) 0

/-- Extend the 16-word message schedule by `n` further words. -/
def schedule : List Nat → Nat → List Nat
  | w, 0 => w
  | w, n + 1 =>
    let t := w.length
    schedule
      (w ++ [(ssig1 (w.getD (t - 2) 0) + w.getD (t - 7) 0
              + ssig0 (w.getD (t - 15) 0) + w.getD (t - 16) 0) % M32]) n

/-- One compression round: the working state is the list `[a,b,c,d,e,f,g,h]`,
`kw` the round constant paired with the schedule word. -/
def roundStep (st : List Nat) (kw : Nat × Nat) : List Nat :=
  let a := st.getD 0 0
  let b := st.getD 1 0
  let c := st.getD 2 0
  let d := st.getD 3 0
  let e := st.getD 4 0
  let f := st.getD 5 0
  let g := st.getD 6 0
  let h := st.getD 7 0
  let t1 := (h + bsig1 e + ch e f g + kw.1 + kw.2) % M32
  let t2 := (bsig0 a + maj a b c) % M32
  [(t1 + t2) % M32, a, b, c, (d + t1) % M32, e, f, g]

/-- Compress one 64-byte block into the 8-word state. -/
def compress (st : List Nat) (block : List Nat) : List Nat :=
  let w16 := (List.range 16).map fun t => wordOf block (4 * t)
  let w := schedule w16 48
  let fin := (K.zip w).foldl roundStep st
  List.zipWith (fun x y => (x + y) % M32) st fin

/-- Fold the compression function over the padded message, 64 bytes at a
time; `fuel` bounds the number of blocks. -/
def processBlocks : Nat → List Nat → List Nat → List Nat
  | _, st, [] => st
  | 0, st, _ => st
  | f + 1, st, bytes => processBlocks f (compress st (bytes.take 64)) (bytes.drop 64)

/-- SHA-256 of a byte list, as the 32-byte digest.  Models Go's
`crypto/sha256.Sum256`. -/
def sha256 (msg : List Nat) : List Nat :=
  let padded := pad msg
  ((processBlocks (padded.length / 64) initH padded).map u32be).flatten

theorem roundStep_length (st : List Nat) (kw : Nat × Nat) : (roundStep st kw).length = 8 := rfl

theorem foldl_roundStep_length (l : List (Nat × Nat)) (st : List Nat) (h : st.length = 8) :
    (l.foldl roundStep st).length = 8 := by
  induction l generalizing st with
  | nil => exact h
  | cons x xs ih => exact ih _ (roundStep_length st x)

theorem compress_length (st block : List Nat) (h : st.length = 8) :
    (compress st block).length = 8 := by
  simp [compress, List.length_zipWith, h, foldl_roundStep_length _ _ h]

theorem processBlocks_length (f : Nat) (st bytes : List Nat) (h : st.length = 8) :
    (processBlocks f st bytes).length = 8 := by
  induction f generalizing st bytes with
  | zero => cases bytes <;> simpa [processBlocks]
  | succ f ih =>
    cases bytes with
    | nil => simpa [processBlocks]
    | cons b bs => exact ih _ _ (compress_length _ _ h)

/-- SHA-256 always produces exactly 32 bytes. -/
theorem sha256_length (msg : List Nat) : (sha256 msg).length = 32 := by
  have h8 : (processBlocks ((pad msg).length / 64) initH (pad msg)).length = 8 :=
    processBlocks_length _ _ _ rfl
  simp only [sha256, List.length_flatten, List.map_map]
  have : ((processBlocks ((pad msg).length / 64) initH (pad msg)).map
      (List.length ∘ u32be)) = (processBlocks ((pad msg).length / 64) initH (pad msg)).map
      (fun _ => 4) := by
    apply List.map_congr_left
    intro a _
    rfl
  rw [this, List.map_const', List.sum_replicate, h8]
  simp

set_option maxRecDepth 10000 in
/-- FIPS 180-4 test vector: the digest of the empty message, pinning this
embedding to real SHA-256. -/
theorem sha256_empty_vector :
    sha256 [] = [0xe3, 0xb0, 0xc4, 0x42, 0x98, 0xfc, 0x1c, 0x14, 0x9a, 0xfb, 0xf4, 0xc8,
      0x99, 0x6f, 0xb9, 0x24, 0x27, 0xae, 0x41, 0xe4, 0x64, 0x9b, 0x93, 0x4c, 0xa4, 0x95,
      0x99, 0x1b, 0x78, 0x52, 0xb8, 0x55] := by
  decide

end SHA2

namespace T3

/-! Embedding of `tool-3/wots.go`.  Addresses are lists of eight 32-bit
words; the Go helpers `withChainAddr`/`withHashAddr`/`withKeyAndMask`
copy the address before writing one word, so they are `List.set`. -/

def paramSN : Nat := 32
def wotsw : Nat := 16
def wotsLogW : Nat := 4
def wotsLen1 : Nat := (8 * paramSN) / wotsLogW
def wotsLen2 : Nat := 3
def wotsLen : Nat := wotsLen1 + wotsLen2
def wotsSigBytes : Nat := wotsLen * paramSN
def xmssHashPaddingPRF : Nat := 3
def xmssHashPaddingF : Nat := 0

/-- Go `ullToBytes`: big-endian encoding of `v` into exactly `n` bytes
(the loop fills from the last index, shifting `v` right byte by byte). -/
def ullToBytes : Nat → Nat → List Nat
  | 0, _ => []
  | n + 1, v => ullToBytes n (v >>> 8) ++ [v &&& 255]

/-- `binary.BigEndian.PutUint32`. -/
def putUint32BE (w : Nat) : List Nat :=
  [(w >>> 24) % 256, (w >>> 16) % 256, (w >>> 8) % 256, w % 256]

/-- Go `addrToBytes`: the 32-byte big-endian serialization of the 8 words. -/
def addrToBytes (addr : List Nat) : List Nat :=
  ((List.range 8).map fun i => putUint32BE (addr.getD i 0)).flatten

/-- Go `prf`: SHA-256 of the PRF padding constant, the key, then the input. -/
def prf (inp key : List Nat) : List Nat :=
  SHA2.sha256 (ullToBytes paramSN xmssHashPaddingPRF ++ key ++ inp)

def withChainAddr (addr : List Nat) (chain : Nat) : List Nat := addr.set 5 chain

def withHashAddr (addr : List Nat) (h : Nat) : List Nat := addr.set 6 h

def withKeyAndMask (addr : List Nat) (keyAndMask : Nat) : List Nat := addr.set 7 keyAndMask

/-- The XOR loop of `thashF` (fixed 32 iterations, as in the source). -/
def xorBytes (a b : List Nat) : List Nat :=
  (List.range paramSN).map fun i => a.getD i 0 ^^^ b.getD i 0

/-- Go `thashF`: keyed, bitmasked compression of one 32-byte value. -/
def thashF (inp pubSeed addr : List Nat) : List Nat :=
  let key := prf (addrToBytes (withKeyAndMask addr 0)) pubSeed
  let mask := prf (addrToBytes (withKeyAndMask addr 1)) pubSeed
  SHA2.sha256 (ullToBytes paramSN xmssHashPaddingF ++ key ++ xorBytes inp mask)

/-- Go `genChain`: the loop `for i := start; i < start+steps && i < wotsw; i++`
visits exactly the indices `start ≤ i < min (start+steps) wotsw`. -/
def genChain (inp : List Nat) (start steps : Nat) (pubSeed addr : List Nat) : List Nat :=
  (List.range' start (min (start + steps) wotsw - start)).foldl
    (fun cur i => thashF cur pubSeed (withHashAddr addr i)) inp

/-- Chunk `i` of Go `expandSeed`: `prf` of the 32-byte big-endian counter. -/
def expandSeedChunk (seed : List Nat) (i : Nat) : List Nat :=
  prf (ullToBytes 32 i) seed

/-- The state machine of Go `baseW`: `n` digits still to emit, current input
index, bits left in `total`.  Out-of-range reads yield 0 (the Go code would
panic; `baseWAccChecked` models that). -/
def baseWAcc (input : List Nat) : Nat → Nat → Nat → Nat → List Nat
  | 0, _, _, _ => []
  | n + 1, inIdx, bits, total =>
    if bits = 0 then
      let t := input.getD inIdx 0
      ((t >>> (8 - wotsLogW)) &&& (wotsw - 1)) :: baseWAcc input n (inIdx + 1) (8 - wotsLogW) t
    else
      ((total >>> (bits - wotsLogW)) &&& (wotsw - 1)) :: baseWAcc input n inIdx (bits - wotsLogW) total

/-- Go `baseW` filling an output of length `outLen`. -/
def baseW (input : List Nat) (outLen : Nat) : List Nat :=
  baseWAcc input outLen 0 0 0

/-- `baseW` with the panicking read made explicit: `none` exactly when the Go
loop would index past the input. -/
def baseWAccChecked (input : List Nat) : Nat → Nat → Nat → Nat → Option (List Nat)
  | 0, _, _, _ => some []
  | n + 1, inIdx, bits, total =>
    if bits = 0 then
      match input[inIdx]? with
      | none => none
      | some t =>
        (baseWAccChecked input n (inIdx + 1) (8 - wotsLogW) t).map
          (((t >>> (8 - wotsLogW)) &&& (wotsw - 1)) :: ·)
    else
      (baseWAccChecked input n inIdx (bits - wotsLogW) total).map
        (((total >>> (bits - wotsLogW)) &&& (wotsw - 1)) :: ·)

/-- Go `wotsChecksum`: sum the complements of the 64 message digits, left-align
the 12-bit field in 2 bytes, and read back 3 base-16 digits. -/
def wotsChecksum (msgBaseW : List Nat) : List Nat :=
  let csum := (msgBaseW.take wotsLen1).foldl (fun s d => s + (wotsw - 1 - d)) 0
  let bitsNeeded := wotsLen2 * wotsLogW
  let bytesNeeded := (bitsNeeded + 7) / 8
  let shift := (8 - bitsNeeded % 8) % 8
  baseW (ullToBytes bytesNeeded (csum <<< shift)) wotsLen2

/-- Go `chainLengths`: 64 message digits followed by the 3 checksum digits. -/
def chainLengths (msg : List Nat) : List Nat :=
  let msgBaseW := baseW (msg.take paramSN) wotsLen1
  msgBaseW ++ wotsChecksum msgBaseW

/-- `wotsChecksum` with every indexed access checked: the Go loop reads
`msgBaseW[i]` for `i < 64`, and `baseW` reads the 2-byte checksum buffer. -/
def wotsChecksumChecked (msgBaseW : List Nat) : Option (List Nat) :=
  if wotsLen1 ≤ msgBaseW.length then
    let csum := (msgBaseW.take wotsLen1).foldl (fun s d => s + (wotsw - 1 - d)) 0
    let bitsNeeded := wotsLen2 * wotsLogW
    let bytesNeeded := (bitsNeeded + 7) / 8
    let shift := (8 - bitsNeeded % 8) % 8
    baseWAccChecked (ullToBytes bytesNeeded (csum <<< shift)) wotsLen2 0 0 0
  else none

/-- `chainLengths` with every slice and indexed access checked: `none` exactly
when some access of the Go code would be out of bounds. -/
def chainLengthsChecked (msg : List Nat) : Option (List Nat) :=
  if paramSN ≤ msg.length then
    match baseWAccChecked (msg.take paramSN) wotsLen1 0 0 0 with
    | none => none
    | some msgBaseW => (wotsChecksumChecked msgBaseW).map (msgBaseW ++ ·)
  else none

/-- The signature bytes Go `WotsSign` writes into `sig[0:2144]`. -/
def signBytes (msg seed pubSeed addr : List Nat) : List Nat :=
  let lengths := chainLengths msg
  ((List.range wotsLen).map fun i =>
    genChain (expandSeedChunk seed i) 0 (lengths.getD i 0) pubSeed (withChainAddr addr i)).flatten

/-- The public-key bytes Go `WotsPkGen` writes into `pk[0:2144]`. -/
def pkGenBytes (seed pubSeed addr : List Nat) : List Nat :=
  ((List.range wotsLen).map fun i =>
    genChain (expandSeedChunk seed i) 0 (wotsw - 1) pubSeed (withChainAddr addr i)).flatten

/-- The bytes Go `WotsPkFromSig` writes into `pk[0:2144]`. -/
def pkFromSigBytes (sig msg pubSeed addr : List Nat) : List Nat :=
  let lengths := chainLengths msg
  ((List.range wotsLen).map fun i =>
    genChain ((sig.drop (paramSN * i)).take paramSN) (lengths.getD i 0)
      (wotsw - 1 - lengths.getD i 0) pubSeed (withChainAddr addr i)).flatten

/-- Go `WotsSign` with its input validation; `sigLen` is the length of the
caller-provided signature buffer. -/
def WotsSign (sigLen : Nat) (msg seed pubSeed addr : List Nat) : Except String (List Nat) :=
  if sigLen < wotsSigBytes then .error "signature buffer too small"
  else if msg.length < paramSN then .error "message too short"
  else if seed.length ≠ paramSN then .error "seed must be 32 bytes"
  else if pubSeed.length ≠ paramSN then .error "pubSeed must be 32 bytes"
  else if addr.length ≠ 8 then .error "address must be 8 uint32s"
  else .ok (signBytes msg seed pubSeed addr)

/-- Go `WotsPkGen` with its input validation; `pkLen` is the length of the
caller-provided public-key buffer. -/
def WotsPkGen (pkLen : Nat) (seed pubSeed addr : List Nat) : Except String (List Nat) :=
  if pkLen < wotsLen * paramSN then .error "public key buffer too small"
  else if seed.length ≠ paramSN then .error "seed must be 32 bytes"
  else if pubSeed.length ≠ paramSN then .error "pubSeed must be 32 bytes"
  else if addr.length ≠ 8 then .error "address must be 8 uint32s"
  else .ok (pkGenBytes seed pubSeed addr)

/-- Go `WotsPkFromSig` with its input validation. -/
def WotsPkFromSig (pkLen : Nat) (sig msg pubSeed addr : List Nat) : Except String (List Nat) :=
  if pkLen < wotsLen * paramSN then .error "public key buffer too small"
  else if sig.length < wotsSigBytes then .error "signature too short"
  else if msg.length < paramSN then .error "message too short"
  else if pubSeed.length ≠ paramSN then .error "pubSeed must be 32 bytes"
  else if addr.length ≠ 8 then .error "address must be 8 uint32s"
  else .ok (pkFromSigBytes sig msg pubSeed addr)

end T3

namespace P2

/-! Embedding of the WOTS+ implementation in the second source file of
`unnamed/part_002`.  Unlike tool-3, this variant mutates its
`WOTSAddress` through a pointer, so `thashF` and `genChain` return the
updated address alongside their output; Go operations that can panic
(`binary.BigEndian.PutUint64` on a short slice, slice expressions past
the buffer, indexed reads) are `Option`-valued. -/

def PARAMSN : Nat := 32
def WOTSW : Nat := 16
def WOTSLOGW : Nat := 4
def WOTSLEN1 : Nat := 64
def WOTSLEN2 : Nat := 3
def WOTSLEN : Nat := WOTSLEN1 + WOTSLEN2
def XMSS_HASH_PADDING_F : Nat := 0
def XMSS_HASH_PADDING_PRF : Nat := 3

def setKeyAndMask (addr : List Nat) (keyAndMask : Nat) : List Nat := addr.set 7 keyAndMask

def setChainAddr (addr : List Nat) (chain : Nat) : List Nat := addr.set 5 chain

def setHashAddr (addr : List Nat) (h : Nat) : List Nat := addr.set 6 h

/-- The value `binary.BigEndian.PutUint64(out[outlen-8:], v)` leaves in a
zeroed `outlen`-byte buffer, when `outlen ≥ 8`. -/
def ullToBytesTotal (outlen : Nat) (v : Nat) : List Nat :=
  List.replicate (outlen - 8) 0 ++ SHA2.u64be v

/-- Go `ullToBytes` of part_002: `PutUint64` needs at least 8 bytes, so any
`outlen < 8` panics (`none`). -/
def ullToBytes (outlen : Nat) (v : Nat) : Option (List Nat) :=
  if 8 ≤ outlen then some (ullToBytesTotal outlen v) else none

/-- `binary.BigEndian.Uint32` at byte offset `o`. -/
def uint32BE (b : List Nat) (o : Nat) : Nat :=
  (b.getD o 0) <<< 24 ||| (b.getD (o + 1) 0) <<< 16 ||| (b.getD (o + 2) 0) <<< 8 ||| b.getD (o + 3) 0

/-- Go `addrToBytes` of part_002 (same serialization as tool-3's). -/
def addrToBytes (addr : List Nat) : List Nat :=
  ((List.range 8).map fun i => T3.putUint32BE (addr.getD i 0)).flatten

/-- Go `bytes32ToWOTSAddress`: eight big-endian words of a 32-byte value. -/
def bytes32ToWOTSAddress (a : List Nat) : List Nat :=
  (List.range 8).map fun i => uint32BE a (4 * i)

/-- Go `prf` of part_002; `key[:PARAMSN]` is `take 32` (all callers pass
32-byte keys, so the slice never panics in the flows modelled here). -/
def prf (inp key : List Nat) : List Nat :=
  SHA2.sha256 (ullToBytesTotal PARAMSN XMSS_HASH_PADDING_PRF ++ key.take PARAMSN ++ inp)

/-- Go `thashF` of part_002: mutates the address selector word and does not
restore it, so the pair carries the address as left after the call. -/
def thashF (inp pubSeed addr : List Nat) : List Nat × List Nat :=
  let addrKey := setKeyAndMask addr 0
  let key := prf (addrToBytes addrKey) pubSeed
  let addrMask := setKeyAndMask addrKey 1
  let bitmask := prf (addrToBytes addrMask) pubSeed
  (SHA2.sha256 (ullToBytesTotal PARAMSN XMSS_HASH_PADDING_F ++ key ++ T3.xorBytes inp bitmask),
   addrMask)

/-- Go `genChain` of part_002, with the threaded mutable address. -/
def genChain (inp : List Nat) (start steps : Nat) (pubSeed addr : List Nat) :
    List Nat × List Nat :=
  (List.range' start (min (start + steps) WOTSW - start)).foldl
    (fun acc i => thashF acc.1 pubSeed (setHashAddr acc.2 i)) (inp.take PARAMSN, addr)

/-- Go `expandSeed` of part_002: the 67 chain-start values. -/
def expandSeed (seed : List Nat) : List (List Nat) :=
  (List.range WOTSLEN).map fun i => prf (ullToBytesTotal 32 i) seed

/-- Go `baseW` of part_002: always emits `WOTSLEN = 67` digits, reading as
many input bytes as that requires (34); `none` on an out-of-range read. -/
def baseW (msg : List Nat) : Option (List Nat) :=
  T3.baseWAccChecked msg WOTSLEN 0 0 0

/-- Go `wotsChecksum` of part_002: computes the digit-complement sum, then
calls `binary.BigEndian.PutUint64` on the 2-byte checksum buffer — which
needs 8 bytes, so this panics (`none`) on every input that reaches it. -/
def wotsChecksum (msgBaseW : List Nat) : Option (List Nat) :=
  if WOTSLEN1 ≤ msgBaseW.length then
    let csum := ((msgBaseW.take WOTSLEN1).foldl (fun s d => s + (WOTSW - 1 - d)) 0)
      <<< (8 - (WOTSLEN2 * WOTSLOGW) % 8)
    match ullToBytes ((WOTSLEN2 * WOTSLOGW + 7) / 8) csum with
    | none => none
    | some csumBytes => (baseW csumBytes).map fun l => l.take WOTSLEN2
  else none

/-- Go `chainLengths` of part_002: slices `msg[:64]` (panics when the digest
has fewer than 64 bytes), then appends the checksum digits. -/
def chainLengths (msg : List Nat) : Option (List Nat) :=
  if WOTSLEN1 ≤ msg.length then
    match baseW (msg.take WOTSLEN1) with
    | none => none
    | some msgBaseW => (wotsChecksum msgBaseW).map fun cs => msgBaseW.take WOTSLEN1 ++ cs
  else none

/-- Go `WOTSSign` of part_002, with the mutable address threaded through the
67 chains. -/
def WOTSSign (msg seed pubSeed addr32 : List Nat) : Option (List Nat) :=
  match chainLengths msg with
  | none => none
  | some lengths =>
    let seeds := expandSeed seed
    some ((List.range WOTSLEN).foldl
      (fun st i =>
        let r := genChain (seeds.getD i []) 0 (lengths.getD i 0) pubSeed
          (setChainAddr st.2 i)
        (st.1 ++ r.1, r.2))
      ([], bytes32ToWOTSAddress addr32)).1

/-- Go `WOTSPkFromSig` of part_002. -/
def WOTSPkFromSig (sig msg pubSeed addr32 : List Nat) : Option (List Nat) :=
  match chainLengths msg with
  | none => none
  | some lengths =>
    some ((List.range WOTSLEN).foldl
      (fun st i =>
        let r := genChain (sig.drop (PARAMSN * i)) (lengths.getD i 0)
          (WOTSW - 1 - lengths.getD i 0) pubSeed (setChainAddr st.2 i)
        (st.1 ++ r.1, r.2))
      ([], bytes32ToWOTSAddress addr32)).1

/-- Go `WOTSPkGen` of part_002 (no checksum involved, hence total). -/
def WOTSPkGen (seed pubSeed addr32 : List Nat) : List Nat :=
  let seeds := expandSeed seed
  ((List.range WOTSLEN).foldl
    (fun st i =>
      let r := genChain (seeds.getD i []) 0 (WOTSW - 1) pubSeed (setChainAddr st.2 i)
      (st.1 ++ r.1, r.2))
    ([], bytes32ToWOTSAddress addr32)).1

end P2

namespace T2

/-! Embedding of `tool-2/main.go` (whose `componentsGenerator` is textually
identical to the one in the first source file of `unnamed/part_002`). -/

/-- The three derived seeds, as in the Go `Components` struct. -/
structure Components where
  PrivateSeed : List Nat
  PublicSeed : List Nat
  AddrSeed : List Nat
  deriving DecidableEq

/-- Go `mochimoHash`: plain SHA-256. -/
def mochimoHash (data : List Nat) : List Nat := SHA2.sha256 data

/-- The bytes of an ASCII string literal, as Go's string concatenation
appends them to the seed. -/
def strBytes (s : String) : List Nat := s.data.map Char.toNat

/-- Go `componentsGenerator`: hash the seed with each of the three domain
tags. -/
def componentsGenerator (wotsSeed : List Nat) : Components :=
  { PrivateSeed := mochimoHash (wotsSeed ++ strBytes "seed")
    PublicSeed := mochimoHash (wotsSeed ++ strBytes "publ")
    AddrSeed := mochimoHash (wotsSeed ++ strBytes "addr") }

/-- Modelled from the spec: `wots.Keygen` of the external library
`github.com/NickP005/WOTS-Go`, which is not part of the repository.  Per the
spec it derives the seed triple from the 32-byte private key and produces
the 2144-byte WOTS+ public key, the address context being the AddrSeed read
as eight big-endian words (exactly the wiring of `generateAccount` in the
first file of `unnamed/part_002`). -/
def Keygen (privateKey : List Nat) : Components × List Nat :=
  let c := componentsGenerator privateKey
  (c, T3.pkGenBytes c.PrivateSeed c.PublicSeed (P2.bytes32ToWOTSAddress c.AddrSeed))

/-- The fixed 12-byte account tag `generateAccount` writes over the last
bytes of the published key. -/
def defaultTag : List Nat := [66, 0, 0, 0, 14, 0, 0, 0, 1, 0, 0, 0]

/-- Go `generateAccount` of tool-2 (the published 2208-byte public key):
validates the seed length, fills the 2208-byte buffer with the WOTS+ public
key, the PublicSeed and the AddrSeed, then overwrites the last 12 bytes
with the default tag. -/
def generateAccount (seed : List Nat) : Option (List Nat) :=
  if seed.length ≠ 32 then none
  else
    let keypair := Keygen seed
    let publicKey := keypair.2 ++ keypair.1.PublicSeed ++ keypair.1.AddrSeed
    some (publicKey.take (2208 - 12) ++ defaultTag)

end T2

/-! ## Helper lemmas -/

namespace T3

theorem ullToBytes_length (n v : Nat) : (ullToBytes n v).length = n := by
  induction n generalizing v with
  | zero => rfl
  | succ n ih => simp [ullToBytes, ih]

theorem thashF_length (inp pubSeed addr : List Nat) : (thashF inp pubSeed addr).length = 32 :=
  SHA2.sha256_length _

theorem expandSeedChunk_length (seed : List Nat) (i : Nat) :
    (expandSeedChunk seed i).length = 32 :=
  SHA2.sha256_length _

theorem foldl_thashF_length (l : List Nat) (pubSeed addr inp : List Nat)
    (h : inp.length = 32) :
    (l.foldl (fun cur i => thashF cur pubSeed (withHashAddr addr i)) inp).length = 32 := by
  induction l generalizing inp with
  | nil => exact h
  | cons x xs ih => exact ih _ (thashF_length _ _ _)

theorem genChain_length (inp : List Nat) (start steps : Nat) (pubSeed addr : List Nat)
    (h : inp.length = 32) : (genChain inp start steps pubSeed addr).length = 32 :=
  foldl_thashF_length _ _ _ _ h

theorem baseWAcc_length (input : List Nat) (n inIdx bits total : Nat) :
    (baseWAcc input n inIdx bits total).length = n := by
  induction n generalizing inIdx bits total with
  | zero => rfl
  | succ n ih =>
    unfold baseWAcc
    split <;> simp [ih]

theorem baseWAcc_lt (input : List Nat) (n inIdx bits total : Nat) :
    ∀ v ∈ baseWAcc input n inIdx bits total, v < 16 := by
  induction n generalizing inIdx bits total with
  | zero => intro v hv; cases hv
  | succ n ih =>
    intro v hv
    unfold baseWAcc at hv
    split at hv <;> simp only [List.mem_cons] at hv <;> rcases hv with h | h
    · subst h
      exact Nat.lt_succ_of_le (Nat.and_le_right)
    · exact ih _ _ _ _ h
    · subst h
      exact Nat.lt_succ_of_le (Nat.and_le_right)
    · exact ih _ _ _ _ h

theorem chainLengths_mem_lt (msg : List Nat) : ∀ v ∈ chainLengths msg, v < 16 := by
  intro v hv
  unfold chainLengths at hv
  rcases List.mem_append.mp hv with h | h
  · exact baseWAcc_lt _ _ _ _ _ v h
  · unfold wotsChecksum at h
    exact baseWAcc_lt _ _ _ _ _ v h

theorem chainLengths_getD_le (msg : List Nat) (i : Nat) :
    (chainLengths msg).getD i 0 ≤ 15 := by
  rcases Nat.lt_or_ge i (chainLengths msg).length with h | h
  · rw [List.getD_eq_getElem _ _ h]
    exact Nat.lt_succ_iff.mp (chainLengths_mem_lt _ _ (List.getElem_mem h))
  · rw [List.getD_eq_default _ _ h]
    exact Nat.zero_le 15

theorem chainLengths_length (msg : List Nat) : (chainLengths msg).length = 67 := by
  unfold chainLengths wotsChecksum
  simp [baseWAcc_length, baseW, wotsLen1, wotsLen2, paramSN, wotsLogW]

end T3

/-- Reading 32-byte chunk `i` out of the concatenation of 32-byte chunks
recovers chunk `i`. -/
theorem flatten_chunk (L : List (List Nat)) (hL : ∀ x ∈ L, x.length = 32) :
    ∀ i, i < L.length → (L.flatten.drop (32 * i)).take 32 = L.getD i [] := by
  induction L with
  | nil => intro i h; cases h
  | cons x xs ih =>
    intro i hi
    have hx : x.length = 32 := hL x (List.mem_cons_self x xs)
    cases i with
    | zero =>
      simpa using @List.take_left' Nat x xs.flatten 32 hx
    | succ j =>
      have h32 : 32 * (j + 1) = 32 + 32 * j := by ring
      rw [List.flatten_cons, h32, ← List.drop_drop,
        @List.drop_left' Nat x xs.flatten 32 hx]
      exact ih (fun y hy => hL y (List.mem_cons_of_mem _ hy)) j (Nat.lt_of_succ_lt_succ hi)

/-- Chunk `i` of the mapped range is the function value. -/
theorem getD_map_range (n : Nat) (f : Nat → List Nat) (i : Nat) (h : i < n) :
    ((List.range n).map f).getD i [] = f i := by
  rw [List.getD_eq_getElem _ _ (by simpa using h)]
  simp

namespace T3

/-- The chain walk visits `start ≤ i < min (start+steps) 16`; splitting a full
walk to 15 at `d` gives the two partial walks of signing and recovery. -/
theorem genChain_genChain (x pubSeed addr : List Nat) (d : Nat) (hd : d ≤ 15) :
    genChain (genChain x 0 d pubSeed addr) d (15 - d) pubSeed addr
      = genChain x 0 15 pubSeed addr := by
  unfold genChain
  have h1 : min (0 + d) wotsw - 0 = d := by simp only [wotsw]; omega
  have h2 : min (d + (15 - d)) wotsw - d = 15 - d := by simp only [wotsw]; omega
  have h3 : min (0 + 15) wotsw - 0 = 15 := by simp only [wotsw]; omega
  rw [h1, h2, h3, ← List.foldl_append]
  congr 1
  have := List.range'_append_1 0 d (15 - d)
  simp only [Nat.zero_add] at this
  rw [this]
  congr 1
  omega

/-- Recovery undoes signing chain by chain: the two compositions of
`genChain` agree with the full public-key walk. -/
theorem pkFromSig_signBytes (msg seed pubSeed addr : List Nat) :
    pkFromSigBytes (signBytes msg seed pubSeed addr) msg pubSeed addr
      = pkGenBytes seed pubSeed addr := by
  unfold pkFromSigBytes signBytes pkGenBytes
  dsimp only
  congr 1
  apply List.map_congr_left
  intro i hi
  have hi' : i < 67 := by simpa using hi
  have hlen : ∀ x ∈ (List.range wotsLen).map fun j =>
      genChain (expandSeedChunk seed j) 0 ((chainLengths msg).getD j 0) pubSeed
        (withChainAddr addr j), x.length = 32 := by
    intro x hx
    obtain ⟨j, _, rfl⟩ := List.mem_map.mp hx
    exact genChain_length _ _ _ _ _ (expandSeedChunk_length _ _)
  have hchunk := flatten_chunk _ hlen i (by simpa [wotsLen, wotsLen1, wotsLen2, paramSN, wotsLogW]
    using hi')
  simp only [show paramSN = 32 from rfl]
  rw [hchunk,
    getD_map_range _ _ _ (by simpa [wotsLen, wotsLen1, wotsLen2, paramSN, wotsLogW] using hi')]
  have hle := chainLengths_getD_le msg i
  have : wotsw - 1 - (chainLengths msg).getD i 0 = 15 - (chainLengths msg).getD i 0 := by
    simp [wotsw]
  rw [this]
  have : wotsw - 1 = 15 := by simp [wotsw]
  rw [this]
  exact genChain_genChain _ _ _ _ hle

/-- The `baseW` state machine emits, for an even digit count, exactly the
nibbles of the consumed bytes, most-significant first. -/
theorem baseWAcc_nibbles (input : List Nat) :
    ∀ (k i total : Nat), i + k ≤ input.length →
      baseWAcc input (2 * k) i 0 total
        = (((input.drop i).take k).map fun b => [(b >>> 4) &&& 15, b &&& 15]).flatten := by
  intro k
  induction k with
  | zero => intro i total _; simp [baseWAcc]
  | succ k ih =>
    intro i total h
    have hi : i < input.length := by omega
    have h2 : 2 * (k + 1) = 2 * k + 1 + 1 := by ring
    have hrhs : (input.drop i).take (k + 1) = input[i] :: ((input.drop (i + 1)).take k) := by
      rw [List.drop_eq_getElem_cons hi, List.take_succ_cons]
    rw [h2, hrhs, List.map_cons, List.flatten_cons]
    rw [show baseWAcc input (2 * k + 1 + 1) i 0 total
        = ((input.getD i 0 >>> 4) &&& 15) :: (input.getD i 0 &&& 15)
            :: baseWAcc input (2 * k) (i + 1) 0 (input.getD i 0) from rfl]
    rw [List.getD_eq_getElem _ _ hi]
    simp only [List.cons_append, List.nil_append, List.cons.injEq]
    exact ⟨trivial, trivial, ih (i + 1) input[i] (by omega)⟩

/-- The checked `baseW` succeeds (and agrees with the total one) whenever the
digits to emit fit in the input: each digit advances the read index by at
most one byte, two digits per byte once aligned. -/
theorem baseWAccChecked_eq (input : List Nat) :
    ∀ (n i bits total : Nat),
      2 * i + n ≤ 2 * input.length + (if bits = 0 then 0 else 1) →
      baseWAccChecked input n i bits total = some (baseWAcc input n i bits total) := by
  intro n
  induction n with
  | zero => intro i bits total _; rfl
  | succ n ih =>
    intro i bits total h
    by_cases hb : bits = 0
    · subst hb
      simp at h
      have hi : i < input.length := by omega
      unfold baseWAccChecked baseWAcc
      simp only [if_pos rfl, List.getElem?_eq_getElem hi, List.getD_eq_getElem _ _ hi]
      rw [ih (i + 1) (8 - wotsLogW) input[i] (by simp [wotsLogW]; omega)]
      rfl
    · simp [hb] at h
      unfold baseWAccChecked baseWAcc
      simp only [if_neg hb]
      rw [ih i (bits - wotsLogW) total (by split <;> omega)]
      rfl

/-- Every read of tool-3's `chainLengths` is in bounds on a 32-byte digest. -/
theorem chainLengthsChecked_eq (msg : List Nat) (h : msg.length = 32) :
    chainLengthsChecked msg = some (chainLengths msg) := by
  have htake : (msg.take paramSN).length = 32 := by simp [paramSN, h]
  have h1 : baseWAccChecked (msg.take paramSN) wotsLen1 0 0 0
      = some (baseWAcc (msg.take paramSN) wotsLen1 0 0 0) := by
    apply baseWAccChecked_eq
    rw [htake]
    norm_num [wotsLen1, paramSN, wotsLogW]
  have hmlen : (baseWAcc (msg.take paramSN) wotsLen1 0 0 0).length = wotsLen1 :=
    baseWAcc_length _ _ _ _ _
  unfold chainLengthsChecked chainLengths wotsChecksumChecked wotsChecksum baseW
  rw [if_pos (by rw [h]; norm_num [paramSN]), h1]
  simp only
  rw [if_pos (Nat.le_of_eq hmlen.symm)]
  rw [baseWAccChecked_eq _ _ _ _ _ (by
    rw [ullToBytes_length]
    norm_num [wotsLen2, wotsLogW])]
  rfl

theorem sum_le_of_lt_16 (l : List Nat) (hb : ∀ v ∈ l, v < 16) : l.sum ≤ 15 * l.length := by
  induction l with
  | nil => simp
  | cons d t ih =>
    have hd : d < 16 := hb d (List.mem_cons_self d t)
    have ht := ih fun v hv => hb v (List.mem_cons_of_mem _ hv)
    simp only [List.sum_cons, List.length_cons]
    omega

theorem foldl_csum (l : List Nat) (hb : ∀ v ∈ l, v < 16) :
    ∀ a, l.foldl (fun s d => s + (15 - d)) a = a + (15 * l.length - l.sum) := by
  induction l with
  | nil => intro a; simp
  | cons d t ih =>
    intro a
    have hd : d < 16 := hb d (List.mem_cons_self d t)
    have ht := sum_le_of_lt_16 t fun v hv => hb v (List.mem_cons_of_mem _ hv)
    rw [List.foldl_cons, ih fun v hv => hb v (List.mem_cons_of_mem _ hv)]
    simp only [List.sum_cons, List.length_cons]
    omega

/-- The checksum digit expressions, as div/mod arithmetic. -/
theorem csum_digit_arith (c : Nat) (hc : c < 4096) :
    ((((c <<< 4) >>> 8) &&& 255) >>> 4) &&& 15 = c / 256
      ∧ (((c <<< 4) >>> 8) &&& 255) &&& 15 = c / 16 % 16
      ∧ (((c <<< 4) &&& 255) >>> 4) &&& 15 = c % 16 := by
  have hmod : ∀ x : Nat, x &&& 255 = x % 256 := fun x => by
    simpa using Nat.and_pow_two_sub_one_eq_mod x 8
  have hmod15 : ∀ x : Nat, x &&& 15 = x % 16 := fun x => by
    simpa using Nat.and_pow_two_sub_one_eq_mod x 4
  simp only [Nat.shiftLeft_eq, Nat.shiftRight_eq_div_pow, hmod, hmod15]
  norm_num
  refine ⟨by omega, by omega, by omega⟩

/-- `wotsChecksum` unfolded to the three emitted digit expressions. -/
theorem wotsChecksum_formula (m : List Nat) :
    wotsChecksum m
      = [(((((m.take 64).foldl (fun s d => s + (15 - d)) 0 <<< 4) >>> 8) &&& 255) >>> 4) &&& 15,
         ((((m.take 64).foldl (fun s d => s + (15 - d)) 0 <<< 4) >>> 8) &&& 255) &&& 15,
         (((((m.take 64).foldl (fun s d => s + (15 - d)) 0 <<< 4)) &&& 255) >>> 4) &&& 15] := rfl

/-- Two 64-digit messages produce the same checksum digits exactly when their
digit sums agree. -/
theorem wotsChecksum_eq_iff (m m' : List Nat)
    (hm : m.length = 64) (hm' : m'.length = 64)
    (hb : ∀ v ∈ m, v < 16) (hb' : ∀ v ∈ m', v < 16) :
    wotsChecksum m' = wotsChecksum m ↔ m'.sum = m.sum := by
  have htm : m.take 64 = m := by rw [← hm]; exact List.take_length m
  have htm' : m'.take 64 = m' := by rw [← hm']; exact List.take_length m'
  have hsum : m.sum ≤ 960 := by
    have := sum_le_of_lt_16 m hb
    omega
  have hsum' : m'.sum ≤ 960 := by
    have := sum_le_of_lt_16 m' hb'
    omega
  have hc : m.foldl (fun s d => s + (15 - d)) 0 = 960 - m.sum := by
    rw [foldl_csum m hb 0, hm]; omega
  have hc' : m'.foldl (fun s d => s + (15 - d)) 0 = 960 - m'.sum := by
    rw [foldl_csum m' hb' 0, hm']; omega
  rw [wotsChecksum_formula, wotsChecksum_formula, htm, htm', hc, hc']
  obtain ⟨e0, e1, e2⟩ := csum_digit_arith (960 - m.sum) (by omega)
  obtain ⟨f0, f1, f2⟩ := csum_digit_arith (960 - m'.sum) (by omega)
  rw [e0, e1, e2, f0, f1, f2]
  constructor
  · intro h
    simp only [List.cons.injEq, and_true] at h
    omega
  · intro h
    rw [h]

/-- Folding digit complements equals adding the sum of the mapped list. -/
theorem foldl_csum_mapsum (l : List Nat) :
    ∀ a, l.foldl (fun s d => s + (15 - d)) a = a + (l.map fun v => 15 - v).sum := by
  induction l with
  | nil => intro a; simp
  | cons d t ih =>
    intro a
    rw [List.foldl_cons, ih]
    simp only [List.map_cons, List.sum_cons]
    omega

/-- The generated public key is exactly 67 chains of 32 bytes. -/
theorem pkGenBytes_length (seed pubSeed addr : List Nat) :
    (pkGenBytes seed pubSeed addr).length = 2144 := by
  unfold pkGenBytes
  rw [List.length_flatten, List.map_map]
  have : ((List.range wotsLen).map
      (List.length ∘ fun i => genChain (expandSeedChunk seed i) 0 (wotsw - 1) pubSeed
        (withChainAddr addr i))) = (List.range wotsLen).map fun _ => 32 := by
    apply List.map_congr_left
    intro a _
    exact genChain_length _ _ _ _ _ (expandSeedChunk_length _ _)
  rw [this, List.map_const', List.sum_replicate]
  simp [wotsLen, wotsLen1, wotsLen2, paramSN, wotsLogW]

end T3

/-- Taking past a left append segment keeps the segment and takes the rest. -/
theorem take_append_len (a b : List Nat) (n : Nat) :
    (a ++ b).take (a.length + n) = a ++ b.take n := by
  induction a with
  | nil => simp
  | cons x xs ih =>
    simp only [List.cons_append, List.length_cons]
    rw [show xs.length + 1 + n = (xs.length + n) + 1 by omega, List.take_succ_cons, ih]

/-! ## The claims -/

/-- C1: for every 32-byte master seed `m` and 32-byte digest `d`, with the
seed triple derived by `componentsGenerator` and the address context taken
from the AddrSeed on both sides, recovering a public key from the signature
of `d` is byte-identical to generating the public key directly. -/
theorem claim1_sign_recover_roundtrip (m d : List Nat)
    (hm : m.length = 32) (hd : d.length = 32) :
    T3.pkFromSigBytes
        (T3.signBytes d (T2.componentsGenerator m).PrivateSeed
          (T2.componentsGenerator m).PublicSeed
          (P2.bytes32ToWOTSAddress (T2.componentsGenerator m).AddrSeed))
        d (T2.componentsGenerator m).PublicSeed
        (P2.bytes32ToWOTSAddress (T2.componentsGenerator m).AddrSeed)
      = T3.pkGenBytes (T2.componentsGenerator m).PrivateSeed
          (T2.componentsGenerator m).PublicSeed
          (P2.bytes32ToWOTSAddress (T2.componentsGenerator m).AddrSeed) :=
  T3.pkFromSig_signBytes _ _ _ _

/-- Witness for C1 at the all-zero master seed and all-zero digest. -/
theorem claim1_witness :
    (List.replicate 32 0).length = 32
      ∧ T3.pkFromSigBytes
          (T3.signBytes (List.replicate 32 0)
            (T2.componentsGenerator (List.replicate 32 0)).PrivateSeed
            (T2.componentsGenerator (List.replicate 32 0)).PublicSeed
            (P2.bytes32ToWOTSAddress (T2.componentsGenerator (List.replicate 32 0)).AddrSeed))
          (List.replicate 32 0) (T2.componentsGenerator (List.replicate 32 0)).PublicSeed
          (P2.bytes32ToWOTSAddress (T2.componentsGenerator (List.replicate 32 0)).AddrSeed)
        = T3.pkGenBytes (T2.componentsGenerator (List.replicate 32 0)).PrivateSeed
            (T2.componentsGenerator (List.replicate 32 0)).PublicSeed
            (P2.bytes32ToWOTSAddress (T2.componentsGenerator (List.replicate 32 0)).AddrSeed) :=
  ⟨rfl, claim1_sign_recover_roundtrip (List.replicate 32 0) (List.replicate 32 0) rfl rfl⟩

/-- C2: walking a chain to depth `d` and then from `d` for the remaining
`15 − d` steps lands at the same value as walking all 15 steps at once. -/
theorem claim2_genChain_split (x pubSeed addr : List Nat) (d : Nat) (hd : d ≤ 15) :
    T3.genChain (T3.genChain x 0 d pubSeed addr) d (15 - d) pubSeed addr
      = T3.genChain x 0 15 pubSeed addr :=
  T3.genChain_genChain x pubSeed addr d hd

/-- Witness for C2 at depth 7 on concrete buffers. -/
theorem claim2_witness :
    (7 : Nat) ≤ 15
      ∧ T3.genChain
          (T3.genChain (List.replicate 32 1) 0 7 (List.replicate 32 2) (List.replicate 8 0))
          7 (15 - 7) (List.replicate 32 2) (List.replicate 8 0)
        = T3.genChain (List.replicate 32 1) 0 15 (List.replicate 32 2) (List.replicate 8 0) :=
  ⟨by decide, claim2_genChain_split (List.replicate 32 1) (List.replicate 32 2)
    (List.replicate 8 0) 7 (by decide)⟩

/-- C7: with `start + steps ≤ 16`, `genChain` applies `thashF` exactly
`steps` times, at hash-step indices `start, …, start+steps−1` (all below
16), each application touching only word 6 of the address, and returns its
input when `steps = 0`. -/
theorem claim7_genChain_steps (inp pubSeed addr : List Nat) (start steps : Nat)
    (h : start + steps ≤ 16) :
    T3.genChain inp start steps pubSeed addr
        = (List.range' start steps).foldl
            (fun cur i => T3.thashF cur pubSeed (T3.withHashAddr addr i)) inp
      ∧ (List.range' start steps).length = steps
      ∧ (∀ i ∈ List.range' start steps, i < 16)
      ∧ (∀ i ∈ List.range' start steps, ∀ j, j ≠ 6 →
            (T3.withHashAddr addr i).getD j 0 = addr.getD j 0)
      ∧ (steps = 0 → T3.genChain inp start steps pubSeed addr = inp) := by
  have hcount : min (start + steps) T3.wotsw - start = steps := by
    simp only [T3.wotsw]
    omega
  refine ⟨?_, ?_, ?_, ?_, ?_⟩
  · unfold T3.genChain
    rw [hcount]
  · simp
  · intro i hi
    simp only [List.mem_range'_1] at hi
    omega
  · intro i _ j hj
    unfold T3.withHashAddr
    simp only [List.getD_eq_getElem?_getD]
    rw [List.getElem?_set_ne (by omega)]
  · intro h0
    subst h0
    unfold T3.genChain
    rw [hcount]
    rfl

/-- Witness for C7 at `start = 2`, `steps = 3` on concrete buffers. -/
theorem claim7_witness :
    (2 : Nat) + 3 ≤ 16
      ∧ (T3.genChain (List.replicate 32 0) 2 3 (List.replicate 32 7) (List.replicate 8 0)
            = (List.range' 2 3).foldl
                (fun cur i => T3.thashF cur (List.replicate 32 7)
                  (T3.withHashAddr (List.replicate 8 0) i)) (List.replicate 32 0)
          ∧ (List.range' 2 3).length = 3
          ∧ (∀ i ∈ List.range' 2 3, i < 16)
          ∧ (∀ i ∈ List.range' 2 3, ∀ j, j ≠ 6 →
                (T3.withHashAddr (List.replicate 8 0) i).getD j 0
                  = (List.replicate 8 0).getD j 0)
          ∧ (3 = 0 → T3.genChain (List.replicate 32 0) 2 3 (List.replicate 32 7)
              (List.replicate 8 0) = List.replicate 32 0)) :=
  ⟨by decide, claim7_genChain_steps (List.replicate 32 0) (List.replicate 32 7)
    (List.replicate 8 0) 2 3 (by decide)⟩

/-- C3: on a 32-byte digest, `chainLengths` performs no out-of-bounds access
and returns exactly 67 digits: the 64 nibbles of the digest most-significant
first, then the 3 digits read off the big-endian 2-byte encoding of the
left-shifted complement sum; every digit is below 16. -/
theorem claim3_chainLengths (d : List Nat) (hd : d.length = 32) :
    (T3.chainLengths d).length = 67
      ∧ (T3.chainLengths d).take 64 = (d.map fun b => [(b >>> 4) &&& 15, b &&& 15]).flatten
      ∧ (T3.chainLengths d).drop 64
          = ((([(((((d.map fun b => [(b >>> 4) &&& 15, b &&& 15]).flatten.map
                  fun v => 15 - v).sum <<< 4) >>> 8) % 256),
               ((((d.map fun b => [(b >>> 4) &&& 15, b &&& 15]).flatten.map
                  fun v => 15 - v).sum <<< 4) % 256)]).map
              fun b => [(b >>> 4) &&& 15, b &&& 15]).flatten).take 3
      ∧ (∀ v ∈ T3.chainLengths d, v < 16)
      ∧ T3.chainLengthsChecked d = some (T3.chainLengths d) := by
  have htake : d.take 32 = d := by
    rw [← hd]
    exact List.take_length d
  have hnib : T3.baseWAcc (d.take T3.paramSN) T3.wotsLen1 0 0 0
      = (d.map fun b => [(b >>> 4) &&& 15, b &&& 15]).flatten := by
    rw [show T3.paramSN = 32 from rfl, show T3.wotsLen1 = 2 * 32 from rfl,
      T3.baseWAcc_nibbles (d.take 32) 32 0 0 (by simp [hd]),
      List.drop_zero, List.take_take]
    norm_num [htake]
  have hmblen : (T3.baseWAcc (d.take T3.paramSN) T3.wotsLen1 0 0 0).length = 64 :=
    T3.baseWAcc_length _ _ _ _ _
  have hstruct : T3.chainLengths d
      = T3.baseWAcc (d.take T3.paramSN) T3.wotsLen1 0 0 0
          ++ T3.wotsChecksum (T3.baseWAcc (d.take T3.paramSN) T3.wotsLen1 0 0 0) := rfl
  have hmod : ∀ x : Nat, x &&& 255 = x % 256 := fun x => by
    simpa using Nat.and_pow_two_sub_one_eq_mod x 8
  refine ⟨T3.chainLengths_length d, ?_, ?_, T3.chainLengths_mem_lt d,
    T3.chainLengthsChecked_eq d hd⟩
  · rw [hstruct, List.take_left' hmblen, hnib]
  · rw [hstruct, List.drop_left' hmblen, T3.wotsChecksum_formula]
    have htm : (T3.baseWAcc (d.take T3.paramSN) T3.wotsLen1 0 0 0).take 64
        = T3.baseWAcc (d.take T3.paramSN) T3.wotsLen1 0 0 0 := by
      rw [← hmblen]
      exact List.take_length _
    rw [htm, T3.foldl_csum_mapsum _ 0, Nat.zero_add, hnib]
    simp only [List.map_cons, List.map_nil, List.flatten_cons, List.flatten_nil,
      List.cons_append, List.nil_append, List.append_nil, hmod]
    rfl

/-- Witness for C3 at the all-zero digest. -/
theorem claim3_witness :
    (List.replicate 32 0).length = 32
      ∧ ((T3.chainLengths (List.replicate 32 0)).length = 67
          ∧ (T3.chainLengths (List.replicate 32 0)).take 64
              = ((List.replicate 32 0).map fun b => [(b >>> 4) &&& 15, b &&& 15]).flatten
          ∧ (T3.chainLengths (List.replicate 32 0)).drop 64
              = ((([((((((List.replicate 32 0).map fun b => [(b >>> 4) &&& 15, b &&& 15]).flatten.map
                      fun v => 15 - v).sum <<< 4) >>> 8) % 256),
                   (((((List.replicate 32 0).map fun b => [(b >>> 4) &&& 15, b &&& 15]).flatten.map
                      fun v => 15 - v).sum <<< 4) % 256)]).map
                  fun b => [(b >>> 4) &&& 15, b &&& 15]).flatten).take 3
          ∧ (∀ v ∈ T3.chainLengths (List.replicate 32 0), v < 16)
          ∧ T3.chainLengthsChecked (List.replicate 32 0)
              = some (T3.chainLengths (List.replicate 32 0))) :=
  ⟨rfl, claim3_chainLengths (List.replicate 32 0) rfl⟩

/-- C9: `componentsGenerator` returns exactly the SHA-256 digests of the
master seed concatenated with the ASCII tags `seed`, `publ`, `addr`, each 32
bytes (determinism is immediate: it is a pure function of its argument). -/
theorem claim9_componentsGenerator (m : List Nat) :
    T2.componentsGenerator m
        = { PrivateSeed := SHA2.sha256 (m ++ [115, 101, 101, 100]),
            PublicSeed := SHA2.sha256 (m ++ [112, 117, 98, 108]),
            AddrSeed := SHA2.sha256 (m ++ [97, 100, 100, 114]) }
      ∧ (T2.componentsGenerator m).PrivateSeed.length = 32
      ∧ (T2.componentsGenerator m).PublicSeed.length = 32
      ∧ (T2.componentsGenerator m).AddrSeed.length = 32 :=
  ⟨rfl, SHA2.sha256_length _, SHA2.sha256_length _, SHA2.sha256_length _⟩

/-- C5 counterexample: part_002's `thashF` hands back its address with the
key/mask selector word set to 1, so an address whose selector word was 0 is
not unchanged after the call. -/
theorem claim5_counterexample :
    (P2.thashF (List.replicate 32 0) (List.replicate 32 0)
        [0, 0, 0, 0, 0, 0, 0, 0]).2 ≠ [0, 0, 0, 0, 0, 0, 0, 0] := by
  decide

/-- C5 amended: tool-3's `thashF` computes on copies of the address (in this
embedding it is a pure function of the address value), while part_002's
`thashF` returns the address with word 7 (the key/mask selector) left at 1
and every other word unchanged. -/
theorem claim5_amended (x pubSeed addr : List Nat) :
    (P2.thashF x pubSeed addr).2 = P2.setKeyAndMask addr 1
      ∧ ∀ j, j ≠ 7 → ((P2.thashF x pubSeed addr).2).getD j 0 = addr.getD j 0 := by
  constructor
  · show P2.setKeyAndMask (P2.setKeyAndMask addr 0) 1 = P2.setKeyAndMask addr 1
    exact List.set_set 0 1 addr 7
  · intro j hj
    show (P2.setKeyAndMask (P2.setKeyAndMask addr 0) 1).getD j 0 = addr.getD j 0
    unfold P2.setKeyAndMask
    simp only [List.getD_eq_getElem?_getD]
    rw [List.getElem?_set_ne (by omega), List.getElem?_set_ne (by omega)]

/-- C6 counterexample: `WotsSign` accepts a 2145-byte signature buffer (the
check is `<`, not `≠`), so a buffer length differing from 2144 does not make
the entry point fail. -/
theorem claim6_counterexample :
    (2145 : Nat) ≠ T3.wotsSigBytes
      ∧ T3.WotsSign 2145 (List.replicate 32 0) (List.replicate 32 0) (List.replicate 32 0)
          (List.replicate 8 0)
        = Except.ok (T3.signBytes (List.replicate 32 0) (List.replicate 32 0)
            (List.replicate 32 0) (List.replicate 8 0)) :=
  ⟨by decide, rfl⟩

/-- C6 amended: the entry points reject a signature buffer or message only
when it is strictly shorter than required (longer ones are accepted), and
reject seeds, public seeds and addresses of any length other than the exact
one; tool-2's `generateAccount` rejects exactly the seeds that are not 32
bytes.  With all arguments at their exact sizes no error is returned. -/
theorem claim6_amended (sigLen pkLen : Nat) (msg seed pubSeed addr sig : List Nat) :
    ((∃ e, T3.WotsSign sigLen msg seed pubSeed addr = Except.error e)
        ↔ sigLen < 2144 ∨ msg.length < 32 ∨ seed.length ≠ 32 ∨ pubSeed.length ≠ 32
            ∨ addr.length ≠ 8)
      ∧ ((∃ e, T3.WotsPkGen pkLen seed pubSeed addr = Except.error e)
        ↔ pkLen < 2144 ∨ seed.length ≠ 32 ∨ pubSeed.length ≠ 32 ∨ addr.length ≠ 8)
      ∧ ((∃ e, T3.WotsPkFromSig pkLen sig msg pubSeed addr = Except.error e)
        ↔ pkLen < 2144 ∨ sig.length < 2144 ∨ msg.length < 32 ∨ pubSeed.length ≠ 32
            ∨ addr.length ≠ 8)
      ∧ (T2.generateAccount seed = none ↔ seed.length ≠ 32) := by
  have h2144s : T3.wotsSigBytes = 2144 := rfl
  have h2144 : T3.wotsLen * T3.paramSN = 2144 := rfl
  have h32 : T3.paramSN = 32 := rfl
  refine ⟨?_, ?_, ?_, ?_⟩
  · unfold T3.WotsSign
    rw [h2144s, h32]
    split_ifs with h1 h2 h3 h4 h5 <;> simp_all
  · unfold T3.WotsPkGen
    rw [h2144, h32]
    split_ifs with h1 h2 h3 h4 <;> simp_all
  · unfold T3.WotsPkFromSig
    rw [h2144, h2144s, h32]
    split_ifs with h1 h2 h3 h4 h5 <;> simp_all
  · unfold T2.generateAccount
    split_ifs with h1 <;> simp_all

/-- C8 counterexample: raising message digit 0 by one and lowering message
digit 1 by one (digest byte `0x0F` replaced by `0x1E`) leaves the complement
sum unchanged, so the 3 checksum digits of `chainLengths` are identical even
though the claim requires them to differ. -/
theorem claim8_counterexample :
    (T3.chainLengths (30 :: List.replicate 31 0)).getD 0 0
        = (T3.chainLengths (15 :: List.replicate 31 0)).getD 0 0 + 1
      ∧ (T3.chainLengths (15 :: List.replicate 31 0)).getD 1 0
        = (T3.chainLengths (30 :: List.replicate 31 0)).getD 1 0 + 1
      ∧ ((T3.chainLengths (30 :: List.replicate 31 0)).take 64).drop 2
          = ((T3.chainLengths (15 :: List.replicate 31 0)).take 64).drop 2
      ∧ (T3.chainLengths (30 :: List.replicate 31 0)).drop 64
          = (T3.chainLengths (15 :: List.replicate 31 0)).drop 64 := by
  decide

/-- C8 amended: for 32-byte digests the 3 checksum digits of `chainLengths`
change exactly when the sum of the 64 message digits changes; a digit-level
mutation that increases one digit and decreases another by the same amount
(sum preserved) leaves the checksum digits identical, while any mutation
changing the sum changes them. -/
theorem claim8_amended (d d' : List Nat) (hd : d.length = 32) (hd' : d'.length = 32) :
    (T3.chainLengths d').drop 64 = (T3.chainLengths d).drop 64
      ↔ ((T3.chainLengths d').take 64).sum = ((T3.chainLengths d).take 64).sum := by
  have hstruct : ∀ x : List Nat, T3.chainLengths x
      = T3.baseWAcc (x.take T3.paramSN) T3.wotsLen1 0 0 0
          ++ T3.wotsChecksum (T3.baseWAcc (x.take T3.paramSN) T3.wotsLen1 0 0 0) :=
    fun x => rfl
  have hmblen : ∀ x : List Nat,
      (T3.baseWAcc (x.take T3.paramSN) T3.wotsLen1 0 0 0).length = 64 :=
    fun x => T3.baseWAcc_length _ _ _ _ _
  rw [hstruct d, hstruct d', List.drop_left' (hmblen d), List.drop_left' (hmblen d'),
    List.take_left' (hmblen d), List.take_left' (hmblen d')]
  exact T3.wotsChecksum_eq_iff _ _ (hmblen d) (hmblen d')
    (T3.baseWAcc_lt _ _ _ _ _) (T3.baseWAcc_lt _ _ _ _ _)

/-- Witness for the amended C8 at a pair of concrete digests. -/
theorem claim8_amended_witness :
    (List.replicate 32 3).length = 32 ∧ (List.replicate 32 5).length = 32
      ∧ ((T3.chainLengths (List.replicate 32 5)).drop 64
            = (T3.chainLengths (List.replicate 32 3)).drop 64
          ↔ ((T3.chainLengths (List.replicate 32 5)).take 64).sum
            = ((T3.chainLengths (List.replicate 32 3)).take 64).sum) :=
  ⟨rfl, rfl, claim8_amended (List.replicate 32 3) (List.replicate 32 5) rfl rfl⟩

/-- C4: part_002's signing path always panics — its `wotsChecksum` hands a
2-byte buffer to `binary.BigEndian.PutUint64` (which needs 8), and its
`chainLengths` slices `msg[:64]` out of the 32-byte digest — so `WOTSSign`
and `WOTSPkFromSig` never produce output on a 32-byte message, while
tool-3's `WotsSign` succeeds on the same input. -/
theorem claim4_part002_signing_panics :
    (∀ l, P2.wotsChecksum l = none)
      ∧ P2.chainLengths (List.replicate 32 0) = none
      ∧ P2.WOTSSign (List.replicate 32 0) (List.replicate 32 0) (List.replicate 32 0)
          (List.replicate 32 0) = none
      ∧ P2.WOTSPkFromSig (List.replicate 32 0) (List.replicate 32 0) (List.replicate 32 0)
          (List.replicate 32 0) = none
      ∧ T3.WotsSign 2144 (List.replicate 32 0) (List.replicate 32 0) (List.replicate 32 0)
          (List.replicate 8 0)
          = Except.ok (T3.signBytes (List.replicate 32 0) (List.replicate 32 0)
              (List.replicate 32 0) (List.replicate 8 0)) := by
  refine ⟨?_, rfl, rfl, rfl, rfl⟩
  intro l
  unfold P2.wotsChecksum
  split <;> rfl

/-- C10: tool-2's published 2208-byte key is the 2144-byte WOTS+ public key,
then the PublicSeed, then the first 20 bytes of the AddrSeed, then the fixed
12-byte default tag — the last 12 bytes of AddrSeed are overwritten. -/
theorem claim10_generateAccount_layout (seed : List Nat) (h : seed.length = 32) :
    T2.generateAccount seed
        = some ((T2.Keygen seed).2 ++ ((T2.componentsGenerator seed).PublicSeed
            ++ ((T2.componentsGenerator seed).AddrSeed.take 20 ++ T2.defaultTag)))
      ∧ ∀ pk, T2.generateAccount seed = some pk →
          pk.length = 2208
            ∧ pk.take 2144 = (T2.Keygen seed).2
            ∧ (pk.drop 2144).take 32 = (T2.componentsGenerator seed).PublicSeed
            ∧ (pk.drop 2176).take 20 = (T2.componentsGenerator seed).AddrSeed.take 20
            ∧ pk.drop 2196 = T2.defaultTag := by
  have hpk : (T2.Keygen seed).2.length = 2144 := T3.pkGenBytes_length _ _ _
  have hps : (T2.componentsGenerator seed).PublicSeed.length = 32 := SHA2.sha256_length _
  have has : (T2.componentsGenerator seed).AddrSeed.length = 32 := SHA2.sha256_length _
  have hat : ((T2.componentsGenerator seed).AddrSeed.take 20).length = 20 := by
    rw [List.length_take, has]
    omega
  have hmain : T2.generateAccount seed
      = some ((T2.Keygen seed).2 ++ ((T2.componentsGenerator seed).PublicSeed
          ++ ((T2.componentsGenerator seed).AddrSeed.take 20 ++ T2.defaultTag))) := by
    unfold T2.generateAccount
    rw [if_neg (by omega)]
    dsimp only
    rw [show (T2.Keygen seed).1 = T2.componentsGenerator seed from rfl,
      List.append_assoc, show (2208 - 12 : Nat) = 2144 + (32 + 20) from by norm_num,
      ← hpk, take_append_len, ← hps, take_append_len]
    simp [List.append_assoc]
  refine ⟨hmain, ?_⟩
  intro pk hpkc
  rw [hmain] at hpkc
  injection hpkc with hpkc
  subst hpkc
  refine ⟨?_, ?_, ?_, ?_, ?_⟩
  · simp only [List.length_append, hpk, hps, hat]
    rfl
  · exact List.take_left' hpk
  · rw [List.drop_left' hpk]
    exact List.take_left' hps
  · rw [show (2176 : Nat) = 2144 + 32 from rfl, ← List.drop_drop,
      List.drop_left' hpk, List.drop_left' hps]
    exact List.take_left' hat
  · rw [show (2196 : Nat) = 2144 + 32 + 20 from rfl, ← List.drop_drop, ← List.drop_drop,
      List.drop_left' hpk, List.drop_left' hps]
    exact List.drop_left' hat

/-! ## part_002 / tool-3 agreement on the public-key path

`WOTSPkGen` never reaches the broken checksum, and the two
implementations differ only in address handling (mutation threaded
through the chains versus fresh copies).  Every serialization point sets
words 5, 6 and 7 before use, so the outputs coincide; these lemmas prove
it, supporting the divergence analysis of C4. -/

theorem getD_set_self_lt (l : List Nat) (n v : Nat) (h : n < l.length) :
    (l.set n v).getD n 0 = v := by
  simp [List.getD_eq_getElem?_getD, List.getElem?_set_self h]

theorem getD_set_ne_of_ne (l : List Nat) (n m v : Nat) (h : n ≠ m) :
    (l.set n v).getD m 0 = l.getD m 0 := by
  simp [List.getD_eq_getElem?_getD, List.getElem?_set_ne h]

/-- Address serialization only reads the first eight words. -/
theorem addrToBytes_ext (a b : List Nat) (h : ∀ k, k < 8 → a.getD k 0 = b.getD k 0) :
    T3.addrToBytes a = T3.addrToBytes b := by
  unfold T3.addrToBytes
  congr 1
  apply List.map_congr_left
  intro i hi
  rw [h i (by simpa using hi)]

theorem ullToBytes_zero (n : Nat) : T3.ullToBytes n 0 = List.replicate n 0 := by
  induction n with
  | zero => rfl
  | succ n ih =>
    show T3.ullToBytes n (0 >>> 8) ++ [0 &&& 255] = _
    rw [show (0 : Nat) >>> 8 = 0 from rfl, ih, show (0 : Nat) &&& 255 = 0 from rfl]
    simp [List.replicate_succ']

/-- Splitting the big-endian encoder at a byte boundary. -/
theorem ullToBytes_split (m : Nat) : ∀ (n v : Nat),
    T3.ullToBytes (m + n) v = T3.ullToBytes m (v >>> (8 * n)) ++ T3.ullToBytes n v := by
  intro n
  induction n with
  | zero =>
    intro v
    simp [T3.ullToBytes]
  | succ n ih =>
    intro v
    rw [show m + (n + 1) = (m + n) + 1 from rfl,
      show T3.ullToBytes (m + n + 1) v = T3.ullToBytes (m + n) (v >>> 8) ++ [v &&& 255] from rfl,
      ih (v >>> 8),
      show T3.ullToBytes (n + 1) v = T3.ullToBytes n (v >>> 8) ++ [v &&& 255] from rfl,
      List.append_assoc, ← Nat.shiftRight_add]
    have : 8 + 8 * n = 8 * (n + 1) := by ring
    rw [this]

/-- Eight low bytes of the in-repo encoder match the stdlib `PutUint64`
image. -/
theorem ullToBytes8_u64be (v : Nat) : T3.ullToBytes 8 v = SHA2.u64be v := by
  have hmod : ∀ x : Nat, x &&& 255 = x % 256 := fun x => by
    simpa using Nat.and_pow_two_sub_one_eq_mod x 8
  simp only [T3.ullToBytes, SHA2.u64be, hmod, ← Nat.shiftRight_add]
  norm_num

/-- Below `2^64` tool-3's 32-byte counter encoding coincides with
part_002's `PutUint64` into the last eight bytes of a zeroed buffer. -/
theorem ullToBytes32_total (i : Nat) (hi : i < 18446744073709551616) :
    T3.ullToBytes 32 i = P2.ullToBytesTotal 32 i := by
  rw [show (32 : Nat) = 24 + 8 from by norm_num, ullToBytes_split 24 8 i,
    show (8 * 8 : Nat) = 64 from rfl,
    show i >>> 64 = 0 from by
      rw [Nat.shiftRight_eq_div_pow]
      exact Nat.div_eq_of_lt (by norm_num; omega),
    ullToBytes_zero, ullToBytes8_u64be]
  rfl

/-- The two `prf`s agree on 32-byte keys. -/
theorem prf_agree (inp key : List Nat) (hk : key.length = 32) :
    P2.prf inp key = T3.prf inp key := by
  unfold P2.prf T3.prf
  rw [show key.take P2.PARAMSN = key from by
      rw [show P2.PARAMSN = 32 from rfl, ← hk]
      exact List.take_length key,
    show P2.ullToBytesTotal P2.PARAMSN P2.XMSS_HASH_PADDING_PRF
      = T3.ullToBytes T3.paramSN T3.xmssHashPaddingPRF from by decide]

/-- part_002's `thashF` returns the address with the selector word set. -/
theorem thashF_snd (x p a : List Nat) : (P2.thashF x p a).2 = a.set 7 1 := by
  show (a.set 7 0).set 7 1 = a.set 7 1
  exact List.set_set 0 1 a 7

/-- The compression outputs agree whenever the two addresses agree outside
the selector word (which both implementations overwrite before use). -/
theorem thashF_agree (x p : List Nat) (hp : p.length = 32) (a b : List Nat)
    (ha : a.length = 8) (hb : b.length = 8)
    (hab : ∀ k, k < 8 → k ≠ 7 → a.getD k 0 = b.getD k 0) :
    (P2.thashF x p a).1 = T3.thashF x p b := by
  have hsel : ∀ v : Nat, T3.addrToBytes (a.set 7 v) = T3.addrToBytes (b.set 7 v) := by
    intro v
    apply addrToBytes_ext
    intro k hk
    by_cases h7 : k = 7
    · subst h7
      rw [getD_set_self_lt _ _ _ (by omega), getD_set_self_lt _ _ _ (by omega)]
    · rw [getD_set_ne_of_ne _ _ _ _ (fun he => h7 he.symm),
        getD_set_ne_of_ne _ _ _ _ (fun he => h7 he.symm)]
      exact hab k hk h7
  show SHA2.sha256 (P2.ullToBytesTotal P2.PARAMSN P2.XMSS_HASH_PADDING_F
      ++ P2.prf (P2.addrToBytes (a.set 7 0)) p
      ++ T3.xorBytes x (P2.prf (P2.addrToBytes ((a.set 7 0).set 7 1)) p)) = _
  rw [show ∀ z, P2.addrToBytes z = T3.addrToBytes z from fun z => rfl,
    show ∀ z, P2.addrToBytes z = T3.addrToBytes z from fun z => rfl,
    List.set_set, prf_agree _ _ hp, prf_agree _ _ hp, hsel 0, hsel 1,
    show P2.ullToBytesTotal P2.PARAMSN P2.XMSS_HASH_PADDING_F
      = T3.ullToBytes T3.paramSN T3.xmssHashPaddingF from by decide]
  rfl

/-- The chain-walk folds agree step by step: part_002 threads a dirty
address whose words outside 6 and 7 match tool-3's fixed address. -/
theorem genChain_fold_agree (p : List Nat) (hp : p.length = 32) (b : List Nat)
    (hb : b.length = 8) :
    ∀ (idxs : List Nat) (cur a : List Nat), a.length = 8 →
      (∀ k, k < 8 → k ≠ 6 → k ≠ 7 → a.getD k 0 = b.getD k 0) →
      (idxs.foldl (fun acc i => P2.thashF acc.1 p (P2.setHashAddr acc.2 i)) (cur, a)).1
          = idxs.foldl (fun c i => T3.thashF c p (T3.withHashAddr b i)) cur
        ∧ ((idxs.foldl (fun acc i => P2.thashF acc.1 p (P2.setHashAddr acc.2 i)) (cur, a)).2).length
            = 8
        ∧ (∀ k, k < 8 → k ≠ 6 → k ≠ 7 →
            ((idxs.foldl (fun acc i => P2.thashF acc.1 p (P2.setHashAddr acc.2 i))
              (cur, a)).2).getD k 0 = b.getD k 0) := by
  intro idxs
  induction idxs with
  | nil => exact fun cur a ha hab => ⟨rfl, ha, fun k hk h6 h7 => hab k hk h6 h7⟩
  | cons i rest ih =>
    intro cur a ha hab
    have hstep1 : (P2.thashF cur p (P2.setHashAddr a i)).1
        = T3.thashF cur p (T3.withHashAddr b i) := by
      apply thashF_agree _ _ hp _ _ (by simp [P2.setHashAddr, ha])
        (by simp [T3.withHashAddr, hb])
      intro k hk h7
      show (a.set 6 i).getD k 0 = (b.set 6 i).getD k 0
      by_cases h6 : k = 6
      · subst h6
        rw [getD_set_self_lt _ _ _ (by omega), getD_set_self_lt _ _ _ (by omega)]
      · rw [getD_set_ne_of_ne _ _ _ _ (fun he => h6 he.symm),
          getD_set_ne_of_ne _ _ _ _ (fun he => h6 he.symm)]
        exact hab k hk h6 h7
    have hstep2 : (P2.thashF cur p (P2.setHashAddr a i)).2 = (a.set 6 i).set 7 1 :=
      thashF_snd cur p (a.set 6 i)
    have hpair : P2.thashF cur p (P2.setHashAddr a i)
        = (T3.thashF cur p (T3.withHashAddr b i), (a.set 6 i).set 7 1) := by
      rw [← hstep1, ← hstep2]
    have hlen : ((a.set 6 i).set 7 1).length = 8 := by simp [ha]
    have hinv : ∀ k, k < 8 → k ≠ 6 → k ≠ 7 → ((a.set 6 i).set 7 1).getD k 0 = b.getD k 0 := by
      intro k hk h6 h7
      rw [getD_set_ne_of_ne _ _ _ _ (fun he => h7 he.symm),
        getD_set_ne_of_ne _ _ _ _ (fun he => h6 he.symm)]
      exact hab k hk h6 h7
    simp only [List.foldl_cons, hpair]
    exact ih (T3.thashF cur p (T3.withHashAddr b i)) ((a.set 6 i).set 7 1) hlen hinv

/-- Chunk `j` of part_002's `expandSeed` is tool-3's expanded chunk. -/
theorem expandSeed_getD (seedArg : List Nat) (hseed : seedArg.length = 32) (j : Nat)
    (hj : j < 67) :
    (P2.expandSeed seedArg).getD j [] = T3.expandSeedChunk seedArg j := by
  unfold P2.expandSeed
  rw [getD_map_range _ _ _ (by norm_num [P2.WOTSLEN, P2.WOTSLEN1, P2.WOTSLEN2]; omega),
    prf_agree _ _ hseed]
  unfold T3.expandSeedChunk
  rw [← ullToBytes32_total j (by omega)]

/-- The full chain walks agree, with part_002's returned address still
matching tool-3's fixed one outside words 6 and 7. -/
theorem genChain_pair_agree (x p : List Nat) (hp : p.length = 32) (a b : List Nat)
    (ha : a.length = 8) (hb : b.length = 8)
    (hab : ∀ k, k < 8 → k ≠ 6 → k ≠ 7 → a.getD k 0 = b.getD k 0) (start steps : Nat) :
    (P2.genChain x start steps p a).1 = T3.genChain (x.take 32) start steps p b
      ∧ ((P2.genChain x start steps p a).2).length = 8
      ∧ (∀ k, k < 8 → k ≠ 6 → k ≠ 7 →
          ((P2.genChain x start steps p a).2).getD k 0 = b.getD k 0) := by
  unfold P2.genChain T3.genChain
  rw [show P2.WOTSW = T3.wotsw from rfl, show x.take P2.PARAMSN = x.take 32 from rfl]
  exact genChain_fold_agree p hp b hb _ (x.take 32) a ha hab

/-- The 67-chain accumulation of part_002's `WOTSPkGen` produces exactly the
concatenation tool-3 builds, chain by chain. -/
theorem pkGenFold_agree (seedArg p A0 : List Nat) (hp : p.length = 32) (hA : A0.length = 8)
    (hseed : seedArg.length = 32) :
    ∀ (idxs : List Nat), (∀ j ∈ idxs, j < 67) →
      ∀ (acc : List Nat) (a : List Nat), a.length = 8 →
        (∀ k, k < 8 → k ≠ 5 → k ≠ 6 → k ≠ 7 → a.getD k 0 = A0.getD k 0) →
        (idxs.foldl (fun st i =>
            let r := P2.genChain ((P2.expandSeed seedArg).getD i []) 0 (P2.WOTSW - 1) p
              (P2.setChainAddr st.2 i)
            (st.1 ++ r.1, r.2)) (acc, a)).1
          = acc ++ (idxs.map fun i => T3.genChain (T3.expandSeedChunk seedArg i) 0
              (T3.wotsw - 1) p (T3.withChainAddr A0 i)).flatten := by
  intro idxs
  induction idxs with
  | nil => intro _ acc a _ _; simp
  | cons j rest ih =>
    intro hjs acc a ha hframe
    have hj : j < 67 := hjs j (List.mem_cons_self j rest)
    have hchunk : (P2.expandSeed seedArg).getD j [] = T3.expandSeedChunk seedArg j :=
      expandSeed_getD seedArg hseed j hj
    have htake : (T3.expandSeedChunk seedArg j).take 32 = T3.expandSeedChunk seedArg j := by
      rw [← T3.expandSeedChunk_length seedArg j]
      exact List.take_length _
    have hframe5 : ∀ k, k < 8 → k ≠ 6 → k ≠ 7 →
        (P2.setChainAddr a j).getD k 0 = (T3.withChainAddr A0 j).getD k 0 := by
      intro k hk h6 h7
      show (a.set 5 j).getD k 0 = (A0.set 5 j).getD k 0
      by_cases h5 : k = 5
      · subst h5
        rw [getD_set_self_lt _ _ _ (by omega), getD_set_self_lt _ _ _ (by omega)]
      · rw [getD_set_ne_of_ne _ _ _ _ (fun he => h5 he.symm),
          getD_set_ne_of_ne _ _ _ _ (fun he => h5 he.symm)]
        exact hframe k hk h5 h6 h7
    obtain ⟨hr1, hr2, hr3⟩ := genChain_pair_agree ((P2.expandSeed seedArg).getD j []) p hp
      (P2.setChainAddr a j) (T3.withChainAddr A0 j)
      (by simp [P2.setChainAddr, ha]) (by simp [T3.withChainAddr, hA]) hframe5 0 (P2.WOTSW - 1)
    have hr1' : (P2.genChain ((P2.expandSeed seedArg).getD j []) 0 (P2.WOTSW - 1) p
        (P2.setChainAddr a j)).1
          = T3.genChain (T3.expandSeedChunk seedArg j) 0 (T3.wotsw - 1) p
            (T3.withChainAddr A0 j) := by
      rw [hr1, hchunk, htake]
      rfl
    have hnextframe : ∀ k, k < 8 → k ≠ 5 → k ≠ 6 → k ≠ 7 →
        ((P2.genChain ((P2.expandSeed seedArg).getD j []) 0 (P2.WOTSW - 1) p
          (P2.setChainAddr a j)).2).getD k 0 = A0.getD k 0 := by
      intro k hk h5 h6 h7
      rw [hr3 k hk h6 h7]
      show (A0.set 5 j).getD k 0 = A0.getD k 0
      rw [getD_set_ne_of_ne _ _ _ _ (fun he => h5 he.symm)]
    simp only [List.foldl_cons, List.map_cons, List.flatten_cons]
    rw [ih (fun i hi => hjs i (List.mem_cons_of_mem _ hi)) _ _ hr2 hnextframe, hr1',
      List.append_assoc]

/-- part_002's `WOTSPkGen` and tool-3's `WotsPkGen` body compute the same
2144 bytes on 32-byte seeds and public seeds (the address given to part_002
as the 32-byte big-endian serialization of tool-3's 8 words). -/
theorem WOTSPkGen_eq_pkGenBytes (seed pubSeed addr32 : List Nat)
    (hseed : seed.length = 32) (hp : pubSeed.length = 32) :
    P2.WOTSPkGen seed pubSeed addr32
      = T3.pkGenBytes seed pubSeed (P2.bytes32ToWOTSAddress addr32) := by
  have hA : (P2.bytes32ToWOTSAddress addr32).length = 8 := by
    simp [P2.bytes32ToWOTSAddress]
  unfold P2.WOTSPkGen T3.pkGenBytes
  dsimp only
  rw [show P2.WOTSLEN = 67 from rfl,
    pkGenFold_agree seed pubSeed _ hp hA hseed (List.range 67)
      (by intro j hj; simpa using hj) [] _ hA (fun k hk _ _ _ => rfl),
    List.nil_append]
  rfl

/-- Witness for C10 at the all-zero seed. -/
theorem claim10_witness :
    (List.replicate 32 0).length = 32
      ∧ (T2.generateAccount (List.replicate 32 0)
            = some ((T2.Keygen (List.replicate 32 0)).2
                ++ ((T2.componentsGenerator (List.replicate 32 0)).PublicSeed
                ++ ((T2.componentsGenerator (List.replicate 32 0)).AddrSeed.take 20
                ++ T2.defaultTag)))
          ∧ ∀ pk, T2.generateAccount (List.replicate 32 0) = some pk →
              pk.length = 2208
                ∧ pk.take 2144 = (T2.Keygen (List.replicate 32 0)).2
                ∧ (pk.drop 2144).take 32
                    = (T2.componentsGenerator (List.replicate 32 0)).PublicSeed
                ∧ (pk.drop 2176).take 20
                    = (T2.componentsGenerator (List.replicate 32 0)).AddrSeed.take 20
                ∧ pk.drop 2196 = T2.defaultTag) :=
  ⟨rfl, claim10_generateAccount_layout (List.replicate 32 0) rfl⟩
